import Mathlib

/-!
Shallow embedding of the paginated knowledge-graph storage subsystem
(src/storage/PaginatedGraphStorage.ts).

Modelling conventions:
- Dates (`new Date()`) are modelled as natural numbers; every mutating
  operation takes the current time `now : Nat` as an explicit argument.
- The three MongoDB collections (`entities`, `relations`, `index`) are
  modelled as lists of documents carried in a `Store` record; documents
  include the `userId` field exactly as the persisted documents do.
- `replaceOne(filter, doc, {upsert: true})` replaces the first document
  matching the filter, or appends the document when none matches
  (`replaceFirst`); `deleteOne` removes the first match (`deleteFirst`);
  `deleteMany` removes all matches; `findOne` returns the first match;
  `find` returns all matches in collection order.
- Optional TypeScript fields (`metadata?`, `tags?`, `searchText?`,
  `strength?`) are `Option`s; JavaScript `x || d` on an object or array
  is `Option.getD` style defaulting (objects and arrays are truthy), and
  on a number it also treats `0` as absent.
-/

/-- Metadata block of an entity document (TypeScript
`metadata?: { createdAt; updatedAt; relationCount?; source? }`). -/
structure EntityMetadata where
  createdAt : Nat
  updatedAt : Nat
  relationCount : Option Nat := none
  source : Option String := none
deriving Repr, DecidableEq

/-- The `Entity` interface of the source: the caller-facing shape, with the
optional fields as `Option`s. -/
structure Entity where
  entityId : String
  name : String
  entityType : String
  observations : List String
  metadata : Option EntityMetadata := none
  tags : Option (List String) := none
  searchText : Option String := none
deriving Repr, DecidableEq

/-- An entity document as persisted by `saveEntity`: `userId` added, the
metadata block always present, `tags` defaulted to `[]` and `searchText`
always computed. -/
structure EntityDoc where
  userId : String
  entityId : String
  name : String
  entityType : String
  observations : List String
  metadata : EntityMetadata
  tags : List String
  searchText : String
deriving Repr, DecidableEq

/-- Metadata block of a relation (TypeScript
`metadata?: { createdAt; source?; confidence? }`). -/
structure RelationMetadata where
  createdAt : Nat
  source : Option String := none
  confidence : Option Nat := none
deriving Repr, DecidableEq

/-- The `Relation` interface of the source. -/
structure Relation where
  relationId : String
  fromEntityId : String
  toEntityId : String
  relationType : String
  strength : Option Nat := none
  metadata : Option RelationMetadata := none
deriving Repr, DecidableEq

/-- A relation document as persisted by `saveRelation`. -/
structure RelationDoc where
  userId : String
  relationId : String
  fromEntityId : String
  toEntityId : String
  relationType : String
  strength : Nat
  metadata : RelationMetadata
deriving Repr, DecidableEq

/-- The `KnowledgeGraph` interface: unit of bulk import/export and of
traversal results. -/
structure KnowledgeGraph where
  entities : List Entity
  relations : List Relation
deriving Repr, DecidableEq

/-- A summary-index document as persisted by `updateSummaryIndex`
(the `summary` sub-object is flattened into the record). -/
structure IndexDoc where
  userId : String
  totalEntities : Nat
  totalRelations : Nat
  entityTypes : List (String × Nat)
  recentEntities : List String
  frequentTerms : List String
  entityNames : List String
  updatedAt : Nat
deriving Repr, DecidableEq

/-- The `GraphSummary` interface returned by `getUserSummary`. -/
structure GraphSummary where
  totalEntities : Nat
  totalRelations : Nat
  entityTypes : List (String × Nat)
  recentEntities : List String
  frequentTerms : List String
  entityNames : List String
  updatedAt : Nat
deriving Repr, DecidableEq

/-- The full state of the three MongoDB collections. -/
structure Store where
  entities : List EntityDoc
  relations : List RelationDoc
  index : List IndexDoc
deriving Repr, DecidableEq

/-- MongoDB `replaceOne(filter, new, {upsert: true})`: replace the first
document matching the filter, or append `new` when none matches. -/
def replaceFirst (p : α → Bool) (new : α) : List α → List α
  | [] => [new]
  | x :: xs => if p x then new :: xs else x :: replaceFirst p new xs

/-- MongoDB `deleteOne(filter)`: remove the first matching document. -/
def deleteFirst (p : α → Bool) : List α → List α
  | [] => []
  | x :: xs => if p x then xs else x :: deleteFirst p xs

/-- Filter used by `saveEntity`, `getEntity` and `deleteEntity`:
`{ userId, entityId }`. -/
def entityKey (u id : String) (d : EntityDoc) : Bool :=
  d.userId == u && d.entityId == id

/-- Filter used by `saveRelation`: `{ fromEntityId, toEntityId }` —
note the absence of `userId` and `relationType`. -/
def relationPairKey (f t : String) (d : RelationDoc) : Bool :=
  d.fromEntityId == f && d.toEntityId == t

/-- Filter used by `getRelations` and the cascade in `deleteEntity`:
`{ userId, $or: [{fromEntityId: id}, {toEntityId: id}] }`. -/
def relTouches (u id : String) (d : RelationDoc) : Bool :=
  d.userId == u && (d.fromEntityId == id || d.toEntityId == id)

/-- The private helper `generateSearchText`: lowercase of the
space-joined name, entityType, observations and tags
(`tags || []` defaults an absent tag list). -/
def generateSearchText (e : Entity) : String :=
  (String.intercalate " "
    ([e.name, e.entityType] ++ e.observations ++ e.tags.getD [])).toLower

/-- The private helper `generateRelationId`:
`fromEntityId-relationType-toEntityId`. -/
def generateRelationId (r : Relation) : String :=
  r.fromEntityId ++ "-" ++ r.relationType ++ "-" ++ r.toEntityId

/-- The document built inside `saveEntity` / `saveEntitiesBatch`:
spreads `entity.metadata`, then overwrites `updatedAt` with `now` and sets
`createdAt` to `entity.metadata?.createdAt || now` (a `Date` is truthy, so
this is the caller value when the metadata block is present, else `now`). -/
def entityDocOf (u : String) (now : Nat) (e : Entity) : EntityDoc :=
  { userId := u
    entityId := e.entityId
    name := e.name
    entityType := e.entityType
    observations := e.observations
    metadata :=
      match e.metadata with
      | some m => { m with updatedAt := now, createdAt := m.createdAt }
      | none => { createdAt := now, updatedAt := now }
    tags := e.tags.getD []
    searchText := generateSearchText e }

/-- The document built inside `saveRelation`: `strength || 1.0` (so `0`
is also replaced by `1`), metadata spread with
`createdAt := relation.metadata?.createdAt || now`. -/
def relationDocOf (u : String) (now : Nat) (r : Relation) : RelationDoc :=
  { userId := u
    relationId := r.relationId
    fromEntityId := r.fromEntityId
    toEntityId := r.toEntityId
    relationType := r.relationType
    strength :=
      match r.strength with
      | some n => if n == 0 then 1 else n
      | none => 1
    metadata :=
      match r.metadata with
      | some m => { m with createdAt := m.createdAt }
      | none => { createdAt := now } }

/-- The private helper `documentToEntity` (note `doc.observations || []`
is just `doc.observations`: a stored array, even empty, is truthy). -/
def documentToEntity (d : EntityDoc) : Entity :=
  { entityId := d.entityId
    name := d.name
    entityType := d.entityType
    observations := d.observations
    metadata := some d.metadata
    tags := some d.tags
    searchText := some d.searchText }

/-- The private helper `documentToRelation`. -/
def documentToRelation (d : RelationDoc) : Relation :=
  { relationId := d.relationId
    fromEntityId := d.fromEntityId
    toEntityId := d.toEntityId
    relationType := d.relationType
    strength := some d.strength
    metadata := some d.metadata }

/-- `saveEntity(userId, entity)`: `replaceOne({userId, entityId}, doc,
{upsert: true})`.  The summary refresh it schedules runs asynchronously
(`setImmediate`) and is modelled separately as `updateSummaryIndex`. -/
def saveEntity (u : String) (now : Nat) (e : Entity) (s : Store) : Store :=
  { s with entities :=
      replaceFirst (entityKey u e.entityId) (entityDocOf u now e) s.entities }

/-- `getEntity(userId, entityId)`: `findOne({userId, entityId})`, mapped
through `documentToEntity`, `null` when absent. -/
def getEntity (u id : String) (s : Store) : Option Entity :=
  (s.entities.find? (entityKey u id)).map documentToEntity

/-- `deleteEntity(userId, entityId)`: `deleteOne({userId, entityId})` on the
entity collection, then `deleteMany({userId, $or: [{fromEntityId},
{toEntityId}]})` on the relation collection. -/
def deleteEntity (u id : String) (s : Store) : Store :=
  { s with
    entities := deleteFirst (entityKey u id) s.entities
    relations := s.relations.filter (fun d => !relTouches u id d) }

/-- `saveRelation(userId, relation)`: `replaceOne({fromEntityId,
toEntityId}, doc, {upsert: true})` — the filter has no `userId` and no
`relationType`. -/
def saveRelation (u : String) (now : Nat) (r : Relation) (s : Store) : Store :=
  { s with
    relations :=
      replaceFirst (relationPairKey r.fromEntityId r.toEntityId)
        (relationDocOf u now r) s.relations }

/-- `getRelations(userId, entityId)`: `find({userId, $or: [{fromEntityId},
{toEntityId}]})`, mapped through `documentToRelation`. -/
def getRelations (u id : String) (s : Store) : List Relation :=
  (s.relations.filter (relTouches u id)).map documentToRelation

/-- `deleteRelation(userId, fromEntityId, toEntityId)`:
`deleteOne({userId, fromEntityId, toEntityId})`. -/
def deleteRelation (u f t : String) (s : Store) : Store :=
  { s with
    relations :=
      deleteFirst
        (fun d => d.userId == u && d.fromEntityId == f && d.toEntityId == t)
        s.relations }

/-- `saveEntitiesBatch(userId, entities)`: a `bulkWrite` of the same
`replaceOne` operations as `saveEntity`, applied in order with a single
`now` timestamp; empty input is a no-op. -/
def saveEntitiesBatch (u : String) (now : Nat) (es : List Entity) (s : Store) :
    Store :=
  es.foldl
    (fun st e =>
      { st with
        entities :=
          replaceFirst (entityKey u e.entityId) (entityDocOf u now e)
            st.entities })
    s

/-- `getEntitiesBatch(userId, entityIds)`: `find({userId, entityId:
{$in: entityIds}})`, mapped through `documentToEntity`. -/
def getEntitiesBatch (u : String) (ids : List String) (s : Store) :
    List Entity :=
  (s.entities.filter (fun d => d.userId == u && ids.contains d.entityId)).map
    documentToEntity

/-- `loadForUser(userId)`: full scan of both collections filtered by
`userId`. -/
def loadForUser (u : String) (s : Store) : KnowledgeGraph :=
  { entities := (s.entities.filter (fun d => d.userId == u)).map
      documentToEntity
    relations := (s.relations.filter (fun d => d.userId == u)).map
      documentToRelation }

/-- `existsForUser(userId)`: `countDocuments({userId}) > 0`. -/
def existsForUser (u : String) (s : Store) : Bool :=
  0 < s.entities.countP (fun d => d.userId == u)

/-- `clearForUser(userId)`: `deleteMany({userId})` on all three
collections. -/
def clearForUser (u : String) (s : Store) : Store :=
  { entities := s.entities.filter (fun d => !(d.userId == u))
    relations := s.relations.filter (fun d => !(d.userId == u))
    index := s.index.filter (fun d => !(d.userId == u)) }

/-- Insertion step for the descending sort on `metadata.updatedAt` used by
the `recentEntities` facet (`$sort: {"metadata.updatedAt": -1}`). -/
def insertDesc (d : EntityDoc) : List EntityDoc → List EntityDoc
  | [] => [d]
  | x :: xs =>
      if x.metadata.updatedAt ≤ d.metadata.updatedAt then d :: x :: xs
      else x :: insertDesc d xs

/-- Descending sort on `metadata.updatedAt` (the aggregation `$sort`
stage; the engine guarantees only the ordering, which is all the source
relies on). -/
def sortDesc : List EntityDoc → List EntityDoc
  | [] => []
  | x :: xs => insertDesc x (sortDesc xs)

/-- The `$group: {_id: "$entityType", count: {$sum: 1}}` facet: one pair
per distinct entity type with its number of occurrences. -/
def entityTypeCounts (docs : List EntityDoc) : List (String × Nat) :=
  ((docs.map (fun d => d.entityType)).dedup).map
    (fun ty => (ty, docs.countP (fun d => d.entityType == ty)))

/-- The private helper `generateSummary(userId)`: direct per-user counts of
both collections, the entity-type histogram, and the ten most recently
updated entity ids (also reused as `searchIndex.entity_names`;
`frequent_terms` is left empty by the source). -/
def generateSummary (u : String) (now : Nat) (s : Store) : GraphSummary :=
  let userEntities := s.entities.filter (fun d => d.userId == u)
  let recent := ((sortDesc userEntities).take 10).map (fun d => d.entityId)
  { totalEntities := userEntities.length
    totalRelations := (s.relations.filter (fun d => d.userId == u)).length
    entityTypes := entityTypeCounts userEntities
    recentEntities := recent
    frequentTerms := []
    entityNames := recent
    updatedAt := now }

/-- `getUserSummary(userId)`: `findOne({userId})` on the index collection;
when a cached summary document exists its fields are returned, otherwise a
fresh summary is generated synchronously. -/
def getUserSummary (u : String) (now : Nat) (s : Store) : GraphSummary :=
  match s.index.find? (fun d => d.userId == u) with
  | some ix =>
      { totalEntities := ix.totalEntities
        totalRelations := ix.totalRelations
        entityTypes := ix.entityTypes
        recentEntities := ix.recentEntities
        frequentTerms := ix.frequentTerms
        entityNames := ix.entityNames
        updatedAt := ix.updatedAt }
  | none => generateSummary u now s

/-- The body of `updateSummaryIndex(userId)` (the source defers this work
with `setImmediate`; here it is the state transformation that the deferred
task applies): regenerate the summary and upsert it keyed by `{userId}`. -/
def updateSummaryIndex (u : String) (now : Nat) (s : Store) : Store :=
  let g := generateSummary u now s
  { s with
    index :=
      replaceFirst (fun d => d.userId == u)
        { userId := u
          totalEntities := g.totalEntities
          totalRelations := g.totalRelations
          entityTypes := g.entityTypes
          recentEntities := g.recentEntities
          frequentTerms := g.frequentTerms
          entityNames := g.entityNames
          updatedAt := now }
        s.index }

/-- Which endpoint of a relation is "the other side" from the node being
expanded: `relation.fromEntityId === currentEntityId ? relation.toEntityId
: relation.fromEntityId`. -/
def nextEntityOf (current : String) (r : Relation) : String :=
  if r.fromEntityId == current then r.toEntityId else r.fromEntityId

/-- Termination measure for the BFS work queue: an item at depth `d`
weighs `(R+1)^(depth+1-d)`, where `R` bounds how many items one expansion
step can enqueue. -/
def queueWeight (depth R : Nat) (q : List (String × Nat)) : Nat :=
  (q.map (fun it => (R + 1) ^ (depth + 1 - it.2))).sum

theorem queueWeight_cons (depth R : Nat) (it : String × Nat)
    (q : List (String × Nat)) :
    queueWeight depth R (it :: q) =
      (R + 1) ^ (depth + 1 - it.2) + queueWeight depth R q := by
  simp [queueWeight]

theorem queueWeight_append (depth R : Nat) (q q2 : List (String × Nat)) :
    queueWeight depth R (q ++ q2) =
      queueWeight depth R q + queueWeight depth R q2 := by
  simp [queueWeight]

theorem queueWeight_const_depth (depth R d : Nat) (ids : List String) :
    queueWeight depth R (ids.map (fun id => (id, d))) =
      ids.length * (R + 1) ^ (depth + 1 - d) := by
  induction ids with
  | nil => simp [queueWeight]
  | cons x xs ih =>
      rw [List.map_cons, queueWeight_cons, ih]
      simp only [List.length_cons, Nat.succ_mul]
      omega

theorem getRelations_length_le (u id : String) (s : Store) :
    (getRelations u id s).length ≤ s.relations.length := by
  simp only [getRelations, List.length_map]
  exact List.length_filter_le _ _

/-- The `while (queue.length > 0)` loop of `getConnectedEntities`.  A
dequeued `(currentEntityId, currentDepth)` is skipped when already visited
or beyond the depth bound; otherwise it is marked visited, its entity (if
present) is appended, and when `currentDepth < depth` its relations are
appended and every unvisited opposite endpoint is enqueued at
`currentDepth + 1`. -/
def bfsLoop (u : String) (depth : Nat) (s : Store)
    (queue : List (String × Nat)) (visited : List String)
    (entities : List Entity) (relations : List Relation) : KnowledgeGraph :=
  match queue with
  | [] => { entities := entities, relations := relations }
  | (currentId, currentDepth) :: rest =>
      if visited.contains currentId ∨ currentDepth > depth then
        bfsLoop u depth s rest visited entities relations
      else
        if _h : currentDepth < depth then
          bfsLoop u depth s
            (rest ++
              ((((getRelations u currentId s).filter
                  (fun r => !(visited ++ [currentId]).contains
                    (nextEntityOf currentId r))).map
                (fun r => nextEntityOf currentId r)).map
                (fun id => (id, currentDepth + 1))))
            (visited ++ [currentId])
            (match getEntity u currentId s with
              | some e => entities ++ [e]
              | none => entities)
            (relations ++ getRelations u currentId s)
        else
          bfsLoop u depth s rest (visited ++ [currentId])
            (match getEntity u currentId s with
              | some e => entities ++ [e]
              | none => entities)
            relations
termination_by queueWeight depth s.relations.length queue
decreasing_by
  · simp only [queueWeight_cons]
    have : 0 < (s.relations.length + 1) ^ (depth + 1 - currentDepth) :=
      pow_pos (Nat.succ_pos _) _
    omega
  · simp only [queueWeight_cons, queueWeight_append, queueWeight_const_depth]
    have hlen : ((getRelations u currentId s).filter
        (fun r => !(visited ++ [currentId]).contains
          (nextEntityOf currentId r))).length ≤ s.relations.length := by
      calc ((getRelations u currentId s).filter _).length
          ≤ (getRelations u currentId s).length := List.length_filter_le _ _
        _ ≤ s.relations.length := getRelations_length_le u currentId s
    have hexp : depth + 1 - currentDepth = (depth - currentDepth) + 1 := by
      omega
    have hsub : depth + 1 - (currentDepth + 1) = depth - currentDepth := by
      omega
    rw [hexp, hsub, pow_succ, List.length_map]
    have hpos : 0 < (s.relations.length + 1) ^ (depth - currentDepth) :=
      pow_pos (Nat.succ_pos _) _
    have := Nat.mul_le_mul_right
      ((s.relations.length + 1) ^ (depth - currentDepth)) hlen
    nlinarith
  · simp only [queueWeight_cons]
    have : 0 < (s.relations.length + 1) ^ (depth + 1 - currentDepth) :=
      pow_pos (Nat.succ_pos _) _
    omega

/-- `getConnectedEntities(userId, entityId, depth)`: run the BFS loop from
the start item `(entityId, 0)` with empty visited set and accumulators. -/
def getConnectedEntities (u id : String) (depth : Nat) (s : Store) :
    KnowledgeGraph :=
  bfsLoop u depth s [(id, 0)] [] [] []

/-- Companion of `bfsLoop` for analysis: runs the identical queue and
visited-set discipline but returns only the node ids, as a pair
`(processed, expanded)`: `processed` are the dequeued ids that passed the
visited/depth check (in processing order), `expanded` the sublist of those
whose relations were fetched because `currentDepth < depth`. -/
def bfsNodes (u : String) (depth : Nat) (s : Store)
    (queue : List (String × Nat)) (visited : List String) :
    List String × List String :=
  match queue with
  | [] => ([], [])
  | (currentId, currentDepth) :: rest =>
      if visited.contains currentId ∨ currentDepth > depth then
        bfsNodes u depth s rest visited
      else
        if _h : currentDepth < depth then
          match bfsNodes u depth s
            (rest ++
              ((((getRelations u currentId s).filter
                  (fun r => !(visited ++ [currentId]).contains
                    (nextEntityOf currentId r))).map
                (fun r => nextEntityOf currentId r)).map
                (fun id => (id, currentDepth + 1))))
            (visited ++ [currentId]) with
          | (ps, es) => (currentId :: ps, currentId :: es)
        else
          match bfsNodes u depth s rest (visited ++ [currentId]) with
          | (ps, es) => (currentId :: ps, es)
termination_by queueWeight depth s.relations.length queue
decreasing_by
  · simp only [queueWeight_cons]
    have : 0 < (s.relations.length + 1) ^ (depth + 1 - currentDepth) :=
      pow_pos (Nat.succ_pos _) _
    omega
  · simp only [queueWeight_cons, queueWeight_append, queueWeight_const_depth]
    have hlen : ((getRelations u currentId s).filter
        (fun r => !(visited ++ [currentId]).contains
          (nextEntityOf currentId r))).length ≤ s.relations.length := by
      calc ((getRelations u currentId s).filter _).length
          ≤ (getRelations u currentId s).length := List.length_filter_le _ _
        _ ≤ s.relations.length := getRelations_length_le u currentId s
    have hexp : depth + 1 - currentDepth = (depth - currentDepth) + 1 := by
      omega
    have hsub : depth + 1 - (currentDepth + 1) = depth - currentDepth := by
      omega
    rw [hexp, hsub, pow_succ, List.length_map]
    have hpos : 0 < (s.relations.length + 1) ^ (depth - currentDepth) :=
      pow_pos (Nat.succ_pos _) _
    have := Nat.mul_le_mul_right
      ((s.relations.length + 1) ^ (depth - currentDepth)) hlen
    nlinarith
  · simp only [queueWeight_cons]
    have : 0 < (s.relations.length + 1) ^ (depth + 1 - currentDepth) :=
      pow_pos (Nat.succ_pos _) _
    omega

/-- The BFS loop result is determined by the processed and expanded node
lists: the entity list is the accumulator followed by the entities of the
processed ids (those that exist), and the relation list is the accumulator
followed by the concatenated `getRelations` of the expanded ids. -/
theorem bfsLoop_eq_nodes (u : String) (depth : Nat) (s : Store) :
    ∀ (q : List (String × Nat)) (v : List String)
      (accE : List Entity) (accR : List Relation),
      bfsLoop u depth s q v accE accR =
        ⟨accE ++
            ((bfsNodes u depth s q v).1.filterMap (fun y => getEntity u y s)),
          accR ++
            ((bfsNodes u depth s q v).2.flatMap
              (fun y => getRelations u y s))⟩ := by
  refine bfsLoop.induct u depth s
    (fun q v accE accR =>
      bfsLoop u depth s q v accE accR =
        ⟨accE ++
            ((bfsNodes u depth s q v).1.filterMap (fun y => getEntity u y s)),
          accR ++
            ((bfsNodes u depth s q v).2.flatMap
              (fun y => getRelations u y s))⟩)
    ?_ ?_ ?_ ?_
  · intro v accE accR
    simp [bfsLoop, bfsNodes]
  · intro v accE accR currentId currentDepth rest hc ih
    simp only [bfsLoop, bfsNodes]
    rw [if_pos hc, if_pos hc]
    exact ih
  · intro v accE accR currentId currentDepth rest hc hlt ih
    simp only [bfsLoop, bfsNodes]
    rw [if_neg hc, if_neg hc, dif_pos hlt, dif_pos hlt, ih]
    cases hge : getEntity u currentId s with
    | none => simp [hge, List.append_assoc]
    | some e => simp [hge, List.append_assoc]
  · intro v accE accR currentId currentDepth rest hc hlt ih
    simp only [bfsLoop, bfsNodes]
    rw [if_neg hc, if_neg hc, dif_neg hlt, dif_neg hlt, ih]
    cases hge : getEntity u currentId s with
    | none => simp [hge, List.append_assoc]
    | some e => simp [hge, List.append_assoc]

theorem find?_replaceFirst_self (p : α → Bool) (new : α) (l : List α)
    (hnew : p new = true) : (replaceFirst p new l).find? p = some new := by
  induction l with
  | nil => simp [replaceFirst, List.find?, hnew]
  | cons x xs ih =>
      by_cases hx : p x = true
      · simp [replaceFirst, hx, List.find?, hnew]
      · simp only [replaceFirst, hx, Bool.false_eq_true, if_false]
        rw [List.find?]
        simp only [hx]
        exact ih

theorem countP_replaceFirst (p : α → Bool) (new : α) (l : List α)
    (hnew : p new = true) :
    (replaceFirst p new l).countP p =
      if l.countP p = 0 then 1 else l.countP p := by
  induction l with
  | nil => simp [replaceFirst, List.countP, List.countP.go, hnew]
  | cons x xs ih =>
      by_cases hx : p x = true
      · simp [replaceFirst, hx, List.countP_cons, hnew]
      · simp [replaceFirst, hx, List.countP_cons, ih]

theorem find?_replaceFirst_other (p q : α → Bool) (new : α) (l : List α)
    (hnew : q new = false) (hpq : ∀ d, p d = true → q d = false) :
    (replaceFirst p new l).find? q = l.find? q := by
  induction l with
  | nil => simp [replaceFirst, List.find?, hnew]
  | cons x xs ih =>
      by_cases hx : p x = true
      · have hqx := hpq x hx
        simp [replaceFirst, hx, List.find?, hnew, hqx]
      · simp only [replaceFirst, hx, Bool.false_eq_true, if_false]
        rw [List.find?, List.find?]
        cases hqx : q x
        · exact ih
        · rfl

theorem filter_replaceFirst (p q : α → Bool) (new : α) (l : List α)
    (hnew : q new = false) (hpq : ∀ d ∈ l, p d = true → q d = false) :
    (replaceFirst p new l).filter q = l.filter q := by
  induction l with
  | nil => simp [replaceFirst, hnew]
  | cons x xs ih =>
      by_cases hx : p x = true
      · have hqx := hpq x (List.mem_cons_self x xs) hx
        simp [replaceFirst, hx, hnew, hqx]
      · simp only [replaceFirst, hx, Bool.false_eq_true, if_false]
        rw [List.filter, List.filter]
        have ih2 := ih (fun d hd => hpq d (List.mem_cons_of_mem x hd))
        cases hqx : q x <;> simp [ih2]

theorem find?_deleteFirst_self (p : α → Bool) (l : List α)
    (hc : l.countP p ≤ 1) : (deleteFirst p l).find? p = none := by
  induction l with
  | nil => simp [deleteFirst]
  | cons x xs ih =>
      by_cases hx : p x = true
      · have hzero : xs.countP p = 0 := by
          rw [List.countP_cons, hx] at hc
          simp at hc
          exact List.countP_eq_zero.mpr (fun a ha => by simp [hc a ha])
        simp only [deleteFirst, hx, if_true]
        rw [List.find?_eq_none]
        intro a ha
        have := List.countP_eq_zero.mp hzero a ha
        simp [this]
      · rw [List.countP_cons] at hc
        simp only [hx] at hc
        simp only [deleteFirst, hx, Bool.false_eq_true, if_false]
        rw [List.find?]
        simp only [hx]
        exact ih (by omega)

theorem filter_deleteFirst (p q : α → Bool) (l : List α)
    (hpq : ∀ d ∈ l, p d = true → q d = false) :
    (deleteFirst p l).filter q = l.filter q := by
  induction l with
  | nil => simp [deleteFirst]
  | cons x xs ih =>
      by_cases hx : p x = true
      · have hqx := hpq x (List.mem_cons_self x xs) hx
        simp [deleteFirst, hx, hqx]
      · simp only [deleteFirst, hx, Bool.false_eq_true, if_false]
        rw [List.filter, List.filter]
        have ih2 := ih (fun d hd => hpq d (List.mem_cons_of_mem x hd))
        cases hqx : q x <;> simp [ih2]

theorem filter_filter_not (p : α → Bool) (l : List α) :
    (l.filter (fun d => !p d)).filter p = [] := by
  induction l with
  | nil => simp
  | cons x xs ih => cases hx : p x <;> simp [hx, ih]

theorem find?_eq_head?_filter (p : α → Bool) (l : List α) :
    l.find? p = (l.filter p).head? := by
  induction l with
  | nil => simp
  | cons x xs ih =>
      rw [List.find?, List.filter_cons]
      cases hx : p x
      · rw [ih]
        simp
      · simp

theorem filter_and_eq_filter_filter (p q : α → Bool) (l : List α) :
    l.filter (fun a => p a && q a) = (l.filter p).filter q := by
  induction l with
  | nil => simp
  | cons x xs ih =>
      rw [List.filter_cons, List.filter_cons]
      cases hp : p x <;> cases hq : q x <;>
        simp [hp, hq, ih, List.filter_cons]

theorem find?_and_eq_find?_filter (p q : α → Bool) (l : List α) :
    l.find? (fun a => p a && q a) = (l.filter p).find? q := by
  rw [find?_eq_head?_filter, find?_eq_head?_filter,
    filter_and_eq_filter_filter]

theorem find?_eq_of_filter_eq (p : α → Bool) (l l2 : List α)
    (h : l.filter p = l2.filter p) : l.find? p = l2.find? p := by
  rw [find?_eq_head?_filter, find?_eq_head?_filter, h]

/-- Sample data for concrete instantiations: an empty store and a few
entities and relations over the ids A and B. -/
def emptyStore : Store := { entities := [], relations := [], index := [] }

def relAB1 : Relation :=
  { relationId := "A-likes-B"
    fromEntityId := "A"
    toEntityId := "B"
    relationType := "likes" }

def relAB2 : Relation :=
  { relationId := "A-knows-B"
    fromEntityId := "A"
    toEntityId := "B"
    relationType := "knows" }

theorem relationDocOf_pairKey (u : String) (now : Nat) (r : Relation) :
    relationPairKey r.fromEntityId r.toEntityId (relationDocOf u now r) =
      true := by
  simp [relationPairKey, relationDocOf]

/-- C1: after two `saveRelation` calls by the same user on relations with
the same ordered endpoint pair, exactly one document with that pair is
stored, and it is the document of the second relation — so a repeat save
with the same type is an idempotent upsert and a save with a different
type overwrites the first, the filter being the ordered pair alone. -/
theorem saveRelation_pair_collapses (u : String) (now1 now2 : Nat)
    (r1 r2 : Relation) (s : Store)
    (hfrom : r1.fromEntityId = r2.fromEntityId)
    (hto : r1.toEntityId = r2.toEntityId)
    (hcount : s.relations.countP
      (relationPairKey r2.fromEntityId r2.toEntityId) ≤ 1) :
    ((saveRelation u now2 r2 (saveRelation u now1 r1 s)).relations.countP
        (relationPairKey r2.fromEntityId r2.toEntityId) = 1) ∧
      ((saveRelation u now2 r2 (saveRelation u now1 r1 s)).relations.find?
          (relationPairKey r2.fromEntityId r2.toEntityId) =
        some (relationDocOf u now2 r2)) := by
  have hk2 : relationPairKey r2.fromEntityId r2.toEntityId
      (relationDocOf u now2 r2) = true := relationDocOf_pairKey u now2 r2
  have hk1 : relationPairKey r2.fromEntityId r2.toEntityId
      (relationDocOf u now1 r1) = true := by
    rw [← hfrom, ← hto]
    exact relationDocOf_pairKey u now1 r1
  constructor
  · show (replaceFirst (relationPairKey r2.fromEntityId r2.toEntityId)
        (relationDocOf u now2 r2)
        ((saveRelation u now1 r1 s).relations)).countP _ = 1
    rw [countP_replaceFirst _ _ _ hk2]
    have h1 : (saveRelation u now1 r1 s).relations.countP
        (relationPairKey r2.fromEntityId r2.toEntityId) =
          if s.relations.countP
              (relationPairKey r2.fromEntityId r2.toEntityId) = 0
            then 1 else s.relations.countP
              (relationPairKey r2.fromEntityId r2.toEntityId) := by
      show (replaceFirst (relationPairKey r1.fromEntityId r1.toEntityId)
          (relationDocOf u now1 r1) s.relations).countP _ = _
      rw [hfrom, hto]
      exact countP_replaceFirst _ _ _ hk1
    rw [h1]
    by_cases h0 : s.relations.countP
        (relationPairKey r2.fromEntityId r2.toEntityId) = 0
    · simp [h0]
    · simp only [h0, if_false]
      have : s.relations.countP
          (relationPairKey r2.fromEntityId r2.toEntityId) = 1 := by omega
      simp [this]
  · show (replaceFirst (relationPairKey r2.fromEntityId r2.toEntityId)
        (relationDocOf u now2 r2)
        ((saveRelation u now1 r1 s).relations)).find? _ = _
    exact find?_replaceFirst_self _ _ _ hk2

/-- Witness for C1 at concrete inputs: user alice saves A likes B and then
A knows B into the empty store. -/
theorem saveRelation_pair_collapses_witness :
    ((saveRelation "alice" 2 relAB2
        (saveRelation "alice" 1 relAB1 emptyStore)).relations.countP
      (relationPairKey relAB2.fromEntityId relAB2.toEntityId) = 1) ∧
    ((saveRelation "alice" 2 relAB2
        (saveRelation "alice" 1 relAB1 emptyStore)).relations.find?
      (relationPairKey relAB2.fromEntityId relAB2.toEntityId) =
        some (relationDocOf "alice" 2 relAB2)) :=
  saveRelation_pair_collapses "alice" 1 2 relAB1 relAB2 emptyStore rfl rfl
    (by decide)

def entA : Entity :=
  { entityId := "A"
    name := "Alice"
    entityType := "person"
    observations := ["likes tea"]
    metadata := some { createdAt := 1, updatedAt := 1 }
    tags := some ["friend"] }

def entB : Entity :=
  { entityId := "B"
    name := "Paris"
    entityType := "place"
    observations := []
    metadata := some { createdAt := 2, updatedAt := 2 }
    tags := some [] }

/-- Entity A resubmitted without any metadata block. -/
def entANoMeta : Entity :=
  { entityId := "A"
    name := "Alice"
    entityType := "person"
    observations := ["likes tea"] }

/-- A store holding entities A and B and the relation A likes B, all for
user u. -/
def sampleStore : Store :=
  saveRelation "u" 3 relAB1
    (saveEntity "u" 2 entB (saveEntity "u" 1 entA emptyStore))

theorem entityDocOf_key (u : String) (now : Nat) (e : Entity) :
    entityKey u e.entityId (entityDocOf u now e) = true := by
  simp [entityKey, entityDocOf]

/-- Fetching the entity id just saved returns the projection of the
document that `saveEntity` wrote. -/
theorem getEntity_saveEntity (u : String) (now : Nat) (e : Entity)
    (s : Store) :
    getEntity u e.entityId (saveEntity u now e s) =
      some (documentToEntity (entityDocOf u now e)) := by
  unfold getEntity saveEntity
  rw [find?_replaceFirst_self _ _ _ (entityDocOf_key u now e)]
  rfl

/-- C3 counterexample: entity A is stored with `createdAt = 1`; saving the
same id again at time 5 with no caller metadata leaves `createdAt = 5`,
not the previously stored 1 — the original creation time is not
preserved when the caller omits it. -/
theorem saveEntity_createdAt_not_preserved :
    ((getEntity "u" "A" (saveEntity "u" 1 entA emptyStore)).map
        (fun e => e.metadata.map (fun m => m.createdAt))) = some (some 1) ∧
      ((getEntity "u" "A"
          (saveEntity "u" 5 entANoMeta
            (saveEntity "u" 1 entA emptyStore))).map
        (fun e => e.metadata.map (fun m => m.createdAt))) = some (some 5) := by
  constructor <;> rfl

/-- C3 amended: the stored `createdAt` after `saveEntity` is the
caller-supplied `metadata.createdAt` when the caller sends a metadata
block — whatever was stored before — and the save time when it sends
none; `updatedAt` is always overwritten with the save time. -/
theorem saveEntity_timestamps (u : String) (now : Nat) (e : Entity)
    (s : Store) :
    ∃ e2, getEntity u e.entityId (saveEntity u now e s) = some e2 ∧
      e2.metadata.map (fun m => m.createdAt) =
        some (match e.metadata with
          | some m => m.createdAt
          | none => now) ∧
      e2.metadata.map (fun m => m.updatedAt) = some now := by
  refine ⟨documentToEntity (entityDocOf u now e),
    getEntity_saveEntity u now e s, ?_, ?_⟩ <;>
      cases hm : e.metadata <;> simp [documentToEntity, entityDocOf, hm]

/-- C4: after `deleteEntity(u, E)` the user has no relation touching E
(`getRelations` returns the empty list) and no entity E (`getEntity`
returns the not-found `none`, under the unique-index invariant of at most
one document per `(userId, entityId)`). -/
theorem deleteEntity_cascades (u id : String) (s : Store)
    (huniq : s.entities.countP (entityKey u id) ≤ 1) :
    getRelations u id (deleteEntity u id s) = [] ∧
      getEntity u id (deleteEntity u id s) = none := by
  constructor
  · show ((s.relations.filter (fun d => !relTouches u id d)).filter
        (relTouches u id)).map documentToRelation = []
    rw [filter_filter_not]
    rfl
  · show ((deleteFirst (entityKey u id) s.entities).find?
        (entityKey u id)).map documentToEntity = none
    rw [find?_deleteFirst_self _ _ huniq]
    rfl

/-- Witness for C4: deleting entity A from the sample store removes the
relation A likes B and the entity itself. -/
theorem deleteEntity_cascades_witness :
    getRelations "u" "A" (deleteEntity "u" "A" sampleStore) = [] ∧
      getEntity "u" "A" (deleteEntity "u" "A" sampleStore) = none :=
  deleteEntity_cascades "u" "A" sampleStore (by decide)

/-- C9: absence is never an exception: `getEntity` returns `none` when no
document matches `(userId, entityId)`, `getRelations` returns `[]` when no
relation of the user touches the id, and `getEntitiesBatch` returns
exactly the requested entities that exist, silently omitting missing ids:
every existing requested entity is in the result, and every result entry
is a requested id that exists. -/
theorem get_absent_empty_results (u id : String) (ids : List String)
    (s : Store)
    (hent : ∀ d ∈ s.entities, entityKey u id d = false)
    (hrel : ∀ d ∈ s.relations, relTouches u id d = false) :
    getEntity u id s = none ∧ getRelations u id s = [] ∧
      (∀ id2 ∈ ids, ∀ e, getEntity u id2 s = some e →
        e ∈ getEntitiesBatch u ids s) ∧
      (∀ e ∈ getEntitiesBatch u ids s, e.entityId ∈ ids ∧
        ∃ e2, getEntity u e.entityId s = some e2) := by
  refine ⟨?_, ?_, ?_, ?_⟩
  · show (s.entities.find? (entityKey u id)).map documentToEntity = none
    rw [List.find?_eq_none.mpr (fun d hd => by simp [hent d hd])]
    rfl
  · show (s.relations.filter (relTouches u id)).map documentToRelation = []
    rw [List.filter_eq_nil_iff.mpr (fun d hd => by simp [hrel d hd])]
    rfl
  · intro id2 hid2 e he
    have hfind : ∃ d, s.entities.find? (entityKey u id2) = some d ∧
        documentToEntity d = e := by
      unfold getEntity at he
      cases hf : s.entities.find? (entityKey u id2) with
      | none => rw [hf] at he; exact absurd he (by simp)
      | some d =>
          rw [hf] at he
          exact ⟨d, rfl, by simpa using he⟩
    obtain ⟨d, hf, hd⟩ := hfind
    have hmem : d ∈ s.entities := List.mem_of_find?_eq_some hf
    have hkey : entityKey u id2 d = true := List.find?_some hf
    have hu : d.userId == u := by
      unfold entityKey at hkey
      exact (Bool.and_eq_true_iff.mp hkey).1
    have hid : d.entityId = id2 := by
      unfold entityKey at hkey
      have := (Bool.and_eq_true_iff.mp hkey).2
      exact eq_of_beq this
    show e ∈ (s.entities.filter
      (fun d => d.userId == u && ids.contains d.entityId)).map
        documentToEntity
    refine List.mem_map.mpr ⟨d, List.mem_filter.mpr ⟨hmem, ?_⟩, hd⟩
    rw [Bool.and_eq_true_iff]
    exact ⟨hu, by rw [hid]; exact List.elem_eq_true_of_mem hid2⟩
  · intro e he
    obtain ⟨d, hdmem, hde⟩ := List.mem_map.mp he
    have hdf := List.mem_filter.mp hdmem
    have hpred := hdf.2
    rw [Bool.and_eq_true_iff] at hpred
    have hu : d.userId = u := eq_of_beq hpred.1
    have hin : d.entityId ∈ ids := by
      have := hpred.2
      exact List.mem_of_elem_eq_true this
    have heid : e.entityId = d.entityId := by
      rw [← hde]; rfl
    refine ⟨by rw [heid]; exact hin, ?_⟩
    have hsome : (s.entities.find? (entityKey u e.entityId)).isSome := by
      rw [List.find?_isSome]
      refine ⟨d, hdf.1, ?_⟩
      unfold entityKey
      rw [Bool.and_eq_true_iff]
      exact ⟨hpred.1, by rw [heid]; simp⟩
    cases hf : s.entities.find? (entityKey u e.entityId) with
    | none => rw [hf] at hsome; exact absurd hsome (by simp)
    | some d2 =>
        exact ⟨documentToEntity d2, by unfold getEntity; rw [hf]; rfl⟩

/-- Witness for C9 at the sample store: the id C is absent and the batch
request for A and C returns only A. -/
theorem get_absent_empty_results_witness :
    getEntity "u" "C" sampleStore = none ∧
      getRelations "u" "C" sampleStore = [] ∧
      (∀ id2 ∈ ["A", "C"], ∀ e, getEntity "u" id2 sampleStore = some e →
        e ∈ getEntitiesBatch "u" ["A", "C"] sampleStore) ∧
      (∀ e ∈ getEntitiesBatch "u" ["A", "C"] sampleStore,
        e.entityId ∈ ["A", "C"] ∧
        ∃ e2, getEntity "u" e.entityId sampleStore = some e2) :=
  get_absent_empty_results "u" "C" ["A", "C"] sampleStore (by decide)
    (by decide)

/-- C6: a depth 0 traversal returns only the start entity when it exists
for the user and nothing at all when it does not; no relations are
returned in either case. -/
theorem getConnectedEntities_depth_zero (u id : String) (s : Store) :
    (getEntity u id s = none →
      getConnectedEntities u id 0 s = ⟨[], []⟩) ∧
    (∀ e, getEntity u id s = some e →
      getConnectedEntities u id 0 s = ⟨[e], []⟩) := by
  have hrun : getConnectedEntities u id 0 s =
      ⟨(match getEntity u id s with
        | some e => [] ++ [e]
        | none => ([] : List Entity)), []⟩ := by
    unfold getConnectedEntities
    simp only [bfsLoop]
    simp
  constructor
  · intro hge
    rw [hrun, hge]
  · intro e hge
    rw [hrun, hge]
    rfl

/-- Witness for C6: in the sample store the start id A exists and the id
C does not. -/
theorem getConnectedEntities_depth_zero_witness :
    getConnectedEntities "u" "C" 0 sampleStore = ⟨[], []⟩ :=
  (getConnectedEntities_depth_zero "u" "C" sampleStore).1 rfl

/-- What a save-then-fetch round trip is expected to return for an entity
`e` whose metadata block is `m`: `e` itself except for the recomputed
`searchText` and the overwritten `metadata.updatedAt`. -/
def expectedFetched (now : Nat) (e : Entity) (m : EntityMetadata) : Entity :=
  { e with
    searchText := some (generateSearchText e)
    metadata := some { m with updatedAt := now } }

theorem saveEntitiesBatch_append (u : String) (now : Nat)
    (xs ys : List Entity) (s : Store) :
    saveEntitiesBatch u now (xs ++ ys) s =
      saveEntitiesBatch u now ys (saveEntitiesBatch u now xs s) := by
  unfold saveEntitiesBatch
  exact List.foldl_append _ _ _ _

theorem getEntity_saveEntitiesBatch_untouched (u id : String) (now : Nat)
    (es : List Entity) (s : Store)
    (hne : ∀ e2 ∈ es, e2.entityId ≠ id) :
    getEntity u id (saveEntitiesBatch u now es s) = getEntity u id s := by
  induction es generalizing s with
  | nil => rfl
  | cons e2 rest ih =>
      show getEntity u id (saveEntitiesBatch u now rest
        (saveEntity u now e2 s)) = getEntity u id s
      rw [ih _ (fun x hx => hne x (List.mem_cons_of_mem e2 hx))]
      unfold getEntity saveEntity
      rw [find?_replaceFirst_other]
      · simp [entityKey, entityDocOf,
          hne e2 (List.mem_cons_self e2 rest)]
      · intro d hd
        unfold entityKey at hd ⊢
        rw [Bool.and_eq_true_iff] at hd
        have : d.entityId = e2.entityId := eq_of_beq hd.2
        simp [this, hne e2 (List.mem_cons_self e2 rest)]

/-- C7 counterexample: entity A is saved without the optional tags field;
the fetched entity carries `tags = some []`, while the saved entity had
none — a difference outside `searchText` and `metadata.updatedAt`, so
the fetched entity does not equal the saved one in all other fields. -/
theorem save_fetch_not_exact :
    ((getEntity "u" "A" (saveEntity "u" 7 entANoMeta emptyStore)).map
      (fun e => e.tags)) = some (some []) ∧ entANoMeta.tags = none := by
  constructor <;> rfl

/-- C7 amended: for an entity that carries a metadata block and a tags
list, the entity fetched after `saveEntity` (or after a
`saveEntitiesBatch` in which no later element reuses the id) equals the
saved one except that `searchText` is the recomputed lowercase join —
any caller-supplied `searchText` being ignored — and
`metadata.updatedAt` is the save time, which is at least the previous
value whenever the clock is monotone; absent optional fields are instead
normalised (tags to `[]`, metadata to a fresh block). -/
theorem save_fetch_roundtrip (u : String) (now : Nat) (e : Entity)
    (m : EntityMetadata) (tg : List String) (s : Store)
    (hm : e.metadata = some m) (ht : e.tags = some tg)
    (hnow : m.updatedAt ≤ now) :
    getEntity u e.entityId (saveEntity u now e s) =
        some (expectedFetched now e m) ∧
      (∀ m2, (expectedFetched now e m).metadata = some m2 →
        m.updatedAt ≤ m2.updatedAt) ∧
      (∀ (pre post : List Entity),
        (∀ e2 ∈ post, e2.entityId ≠ e.entityId) →
        getEntity u e.entityId
            (saveEntitiesBatch u now (pre ++ e :: post) s) =
          some (expectedFetched now e m)) := by
  have hview : documentToEntity (entityDocOf u now e) =
      expectedFetched now e m := by
    simp [documentToEntity, entityDocOf, expectedFetched, hm, ht]
  refine ⟨?_, ?_, ?_⟩
  · rw [getEntity_saveEntity, hview]
  · intro m2 hm2
    simp only [expectedFetched] at hm2
    cases hm2
    exact hnow
  · intro pre post hpost
    rw [saveEntitiesBatch_append]
    show getEntity u e.entityId (saveEntitiesBatch u now post
      (saveEntity u now e (saveEntitiesBatch u now pre s))) = _
    rw [getEntity_saveEntitiesBatch_untouched u e.entityId now post _ hpost]
    rw [getEntity_saveEntity, hview]

/-- Witness for C7 at a concrete input: entity A saved at time 7. -/
theorem save_fetch_roundtrip_witness :
    getEntity "u" "A" (saveEntity "u" 7 entA emptyStore) =
      some (expectedFetched 7 entA { createdAt := 1, updatedAt := 1 }) :=
  (save_fetch_roundtrip "u" 7 entA { createdAt := 1, updatedAt := 1 } ["friend"]
    emptyStore rfl rfl (by decide)).1

theorem filter_filter_not_disjoint (p q : α → Bool) (l : List α)
    (hpq : ∀ d ∈ l, q d = true → p d = false) :
    (l.filter (fun d => !p d)).filter q = l.filter q := by
  induction l with
  | nil => simp
  | cons x xs ih =>
      have ih2 := ih (fun d hd => hpq d (List.mem_cons_of_mem x hd))
      by_cases hq : q x = true
      · have hp := hpq x (List.mem_cons_self x xs) hq
        simp [List.filter_cons, hp, hq, ih2]
      · have hq2 : q x = false := by
          cases h : q x
          · rfl
          · exact absurd h hq
        cases hp : p x <;> simp [List.filter_cons, hp, hq2, ih2]

/-- The data of user `u2` observable through the read operations: the
results of `getEntity` and `getRelations` at every id, the full
`loadForUser` export, and `getUserSummary`. -/
def sameViews (u2 : String) (now : Nat) (s s2 : Store) : Prop :=
  (∀ id, getEntity u2 id s2 = getEntity u2 id s) ∧
  (∀ id, getRelations u2 id s2 = getRelations u2 id s) ∧
  loadForUser u2 s2 = loadForUser u2 s ∧
  getUserSummary u2 now s2 = getUserSummary u2 now s

/-- Every read observable of a user is a function of the three per-user
filtered collections. -/
theorem sameViews_of_filter_eq (u2 : String) (now : Nat) (s s2 : Store)
    (he : s2.entities.filter (fun d => d.userId == u2) =
      s.entities.filter (fun d => d.userId == u2))
    (hr : s2.relations.filter (fun d => d.userId == u2) =
      s.relations.filter (fun d => d.userId == u2))
    (hi : s2.index.filter (fun d => d.userId == u2) =
      s.index.filter (fun d => d.userId == u2)) :
    sameViews u2 now s s2 := by
  have hfind : ∀ (l : List EntityDoc) (id : String),
      l.find? (entityKey u2 id) =
        (l.filter (fun d => d.userId == u2)).find?
          (fun d => d.entityId == id) := by
    intro l id
    rw [← find?_and_eq_find?_filter]
    rfl
  have hfilt : ∀ (l : List RelationDoc) (id : String),
      l.filter (relTouches u2 id) =
        (l.filter (fun d => d.userId == u2)).filter
          (fun d => d.fromEntityId == id || d.toEntityId == id) := by
    intro l id
    rw [← filter_and_eq_filter_filter]
    rfl
  refine ⟨?_, ?_, ?_, ?_⟩
  · intro id
    unfold getEntity
    rw [hfind, hfind, he]
  · intro id
    unfold getRelations
    rw [hfilt, hfilt, hr]
  · unfold loadForUser
    rw [he, hr]
  · unfold getUserSummary
    rw [find?_eq_of_filter_eq _ _ _ hi]
    cases hf : s.index.find? (fun d => d.userId == u2) with
    | some ix => rfl
    | none =>
        simp only [generateSummary, he, hr]

theorem saveEntity_filter_other (u1 u2 : String) (now : Nat) (e : Entity)
    (l : List EntityDoc) (hne : u1 ≠ u2) :
    (replaceFirst (entityKey u1 e.entityId) (entityDocOf u1 now e)
        l).filter (fun d => d.userId == u2) =
      l.filter (fun d => d.userId == u2) := by
  apply filter_replaceFirst
  · simp [entityDocOf, hne]
  · intro d hd hk
    unfold entityKey at hk
    rw [Bool.and_eq_true_iff] at hk
    have : d.userId = u1 := eq_of_beq hk.1
    simp [this, hne]

/-- C2 amended: with `saveRelation` guarded by the precondition that no
stored relation document with the written ordered endpoint pair belongs
to another user, every mutation invoked by user `u1` leaves every read
observable of every other user `u2` unchanged; the unguarded
`saveRelation` is the single exception (see the counterexample), because
its `replaceOne` filter carries no `userId`. -/
theorem user_isolation (u1 u2 : String) (s : Store) (hne : u1 ≠ u2) :
    (∀ now now2 e, sameViews u2 now2 s (saveEntity u1 now e s)) ∧
    (∀ now now2 es, sameViews u2 now2 s (saveEntitiesBatch u1 now es s)) ∧
    (∀ now2 id, sameViews u2 now2 s (deleteEntity u1 id s)) ∧
    (∀ now2 f t, sameViews u2 now2 s (deleteRelation u1 f t s)) ∧
    (∀ now2, sameViews u2 now2 s (clearForUser u1 s)) ∧
    (∀ now now2, sameViews u2 now2 s (updateSummaryIndex u1 now s)) ∧
    (∀ now now2 r,
      (∀ d ∈ s.relations,
        relationPairKey r.fromEntityId r.toEntityId d = true →
          d.userId = u1) →
      sameViews u2 now2 s (saveRelation u1 now r s)) := by
  have hu12 : (u1 == u2) = false := by
    cases h : u1 == u2
    · rfl
    · exact absurd (eq_of_beq h) hne
  refine ⟨?_, ?_, ?_, ?_, ?_, ?_, ?_⟩
  · intro now now2 e
    exact sameViews_of_filter_eq u2 now2 s _
      (saveEntity_filter_other u1 u2 now e s.entities hne) rfl rfl
  · intro now now2 es
    have h : ∀ (es : List Entity) (s0 : Store),
        (saveEntitiesBatch u1 now es s0).entities.filter
            (fun d => d.userId == u2) =
          s0.entities.filter (fun d => d.userId == u2) ∧
        (saveEntitiesBatch u1 now es s0).relations = s0.relations ∧
        (saveEntitiesBatch u1 now es s0).index = s0.index := by
      intro es
      induction es with
      | nil => intro s0; exact ⟨rfl, rfl, rfl⟩
      | cons e rest ih =>
          intro s0
          have hdef : saveEntitiesBatch u1 now (e :: rest) s0 =
              saveEntitiesBatch u1 now rest (saveEntity u1 now e s0) := rfl
          have step := ih (saveEntity u1 now e s0)
          refine ⟨?_, ?_, ?_⟩
          · rw [hdef, step.1]
            exact saveEntity_filter_other u1 u2 now e s0.entities hne
          · rw [hdef, step.2.1]
            rfl
          · rw [hdef, step.2.2]
            rfl
    exact sameViews_of_filter_eq u2 now2 s _ (h es s).1
      (by rw [(h es s).2.1]) (by rw [(h es s).2.2])
  · intro now2 id
    refine sameViews_of_filter_eq u2 now2 s _ ?_ ?_ rfl
    · apply filter_deleteFirst
      intro d hd hk
      unfold entityKey at hk
      rw [Bool.and_eq_true_iff] at hk
      have : d.userId = u1 := eq_of_beq hk.1
      simp [this, hne]
    · apply filter_filter_not_disjoint
      intro d hd hq
      have hdu : d.userId = u2 := eq_of_beq hq
      unfold relTouches
      simp [hdu]
      intro h
      exact absurd h.symm hne
  · intro now2 f t
    refine sameViews_of_filter_eq u2 now2 s _ rfl ?_ rfl
    apply filter_deleteFirst
    intro d hd hk
    simp only [Bool.and_eq_true, beq_iff_eq] at hk
    have hd1 : d.userId = u1 := by tauto
    simp [hd1, hne]
  · intro now2
    refine sameViews_of_filter_eq u2 now2 s _ ?_ ?_ ?_ <;>
      · apply filter_filter_not_disjoint
        intro d hd hq
        have hdu : d.userId = u2 := eq_of_beq hq
        simp [hdu]
        exact fun h => hne h.symm
  · intro now now2
    refine sameViews_of_filter_eq u2 now2 s _ rfl rfl ?_
    apply filter_replaceFirst
    · exact hu12
    · intro d hd hk
      have : d.userId = u1 := eq_of_beq hk
      simp [this, hne]
  · intro now now2 r hsafe
    refine sameViews_of_filter_eq u2 now2 s _ rfl ?_ rfl
    apply filter_replaceFirst
    · simp [relationDocOf, hne]
    · intro d hd hk
      simp [hsafe d hd hk, hne]

/-- A store in which user bob owns entity A and the relation A likes B. -/
def bobStore : Store :=
  saveRelation "bob" 1 relAB1 (saveEntity "bob" 1 entA emptyStore)

/-- C2 counterexample: alice and bob are distinct users, yet alice's
`saveRelation` on the ordered pair (A, B) changes what bob's
`getRelations` returns — the `replaceOne` filter `{fromEntityId,
toEntityId}` carries no `userId`, so alice's write replaces bob's stored
edge and the claimed isolation of every operation fails. -/
theorem saveRelation_breaks_isolation :
    ("alice" : String) ≠ "bob" ∧
      getRelations "bob" "A" (saveRelation "alice" 2 relAB2 bobStore) ≠
        getRelations "bob" "A" bobStore := by
  constructor
  · decide
  · decide

/-- Witness for C2 (amended) at concrete inputs: alice saving an entity
leaves every bob observable unchanged. -/
theorem user_isolation_witness :
    sameViews "bob" 9 bobStore (saveEntity "alice" 5 entB bobStore) :=
  (user_isolation "alice" "bob" bobStore (by decide)).1 5 9 entB

theorem mem_insertDesc (d x : EntityDoc) (l : List EntityDoc) :
    x ∈ insertDesc d l ↔ x = d ∨ x ∈ l := by
  induction l with
  | nil => simp [insertDesc]
  | cons y ys ih =>
      by_cases hy : y.metadata.updatedAt ≤ d.metadata.updatedAt
      · simp [insertDesc, hy]
      · simp [insertDesc, hy, ih]
        tauto

theorem mem_sortDesc (x : EntityDoc) (l : List EntityDoc) :
    x ∈ sortDesc l ↔ x ∈ l := by
  induction l with
  | nil => simp [sortDesc]
  | cons y ys ih => simp [sortDesc, mem_insertDesc, ih]

theorem pairwise_insertDesc (d : EntityDoc) (l : List EntityDoc)
    (h : l.Pairwise
      (fun a b => b.metadata.updatedAt ≤ a.metadata.updatedAt)) :
    (insertDesc d l).Pairwise
      (fun a b => b.metadata.updatedAt ≤ a.metadata.updatedAt) := by
  induction l with
  | nil => simp [insertDesc]
  | cons y ys ih =>
      rw [List.pairwise_cons] at h
      by_cases hy : y.metadata.updatedAt ≤ d.metadata.updatedAt
      · rw [insertDesc]
        simp only [hy, if_true]
        rw [List.pairwise_cons]
        constructor
        · intro b hb
          rcases List.mem_cons.mp hb with hb | hb
          · rw [hb]; exact hy
          · exact le_trans (h.1 b hb) hy
        · rw [List.pairwise_cons]
          exact h
      · rw [insertDesc]
        simp only [hy, if_false]
        rw [List.pairwise_cons]
        constructor
        · intro b hb
          rcases (mem_insertDesc d b ys).mp hb with hb | hb
          · rw [hb]
            exact le_of_lt (Nat.lt_of_not_le hy)
          · exact h.1 b hb
        · exact ih h.2

theorem sortDesc_pairwise (l : List EntityDoc) :
    (sortDesc l).Pairwise
      (fun a b => b.metadata.updatedAt ≤ a.metadata.updatedAt) := by
  induction l with
  | nil => simp [sortDesc]
  | cons y ys ih => exact pairwise_insertDesc y (sortDesc ys) ih

/-- C8: `getUserSummary` returns the cached index document's summary when
one exists, and otherwise synchronously computes a fresh one whose
`totalEntities` and `totalRelations` are direct per-user counts and whose
`recentEntities` are at most ten entity ids listed in descending
`metadata.updatedAt` order. -/
theorem getUserSummary_spec (u : String) (now : Nat) (s : Store) :
    (∀ ix, s.index.find? (fun d => d.userId == u) = some ix →
      getUserSummary u now s =
        { totalEntities := ix.totalEntities
          totalRelations := ix.totalRelations
          entityTypes := ix.entityTypes
          recentEntities := ix.recentEntities
          frequentTerms := ix.frequentTerms
          entityNames := ix.entityNames
          updatedAt := ix.updatedAt }) ∧
    (s.index.find? (fun d => d.userId == u) = none →
      getUserSummary u now s = generateSummary u now s ∧
      (getUserSummary u now s).totalEntities =
        s.entities.countP (fun d => d.userId == u) ∧
      (getUserSummary u now s).totalRelations =
        s.relations.countP (fun d => d.userId == u) ∧
      (getUserSummary u now s).recentEntities.length ≤ 10 ∧
      ∃ ds : List EntityDoc,
        ds.map (fun d => d.entityId) =
          (getUserSummary u now s).recentEntities ∧
        (∀ d ∈ ds, d ∈ s.entities ∧ d.userId = u) ∧
        ds.Pairwise
          (fun a b => b.metadata.updatedAt ≤ a.metadata.updatedAt)) := by
  constructor
  · intro ix hix
    unfold getUserSummary
    rw [hix]
  · intro hnone
    have hfresh : getUserSummary u now s = generateSummary u now s := by
      unfold getUserSummary
      rw [hnone]
    refine ⟨hfresh, ?_, ?_, ?_, ?_⟩
    · rw [hfresh]
      simp only [generateSummary]
      rw [List.countP_eq_length_filter]
    · rw [hfresh]
      simp only [generateSummary]
      rw [List.countP_eq_length_filter]
    · rw [hfresh]
      simp only [generateSummary, List.length_map, List.length_take]
      exact min_le_left _ _
    · refine ⟨(sortDesc (s.entities.filter
        (fun d => d.userId == u))).take 10, ?_, ?_, ?_⟩
      · rw [hfresh]
        simp only [generateSummary]
      · intro d hd
        have hmem : d ∈ sortDesc (s.entities.filter
            (fun d => d.userId == u)) := List.mem_of_mem_take hd
        have := (mem_sortDesc d _).mp hmem
        have hf := List.mem_filter.mp this
        exact ⟨hf.1, eq_of_beq hf.2⟩
      · exact (sortDesc_pairwise _).sublist (List.take_sublist _ _)

/-- Witness for C8: the sample store has no cached index document, so the
summary is computed fresh and counts directly. -/
theorem getUserSummary_spec_witness :
    getUserSummary "u" 9 sampleStore = generateSummary "u" 9 sampleStore ∧
      (getUserSummary "u" 9 sampleStore).totalEntities =
        sampleStore.entities.countP (fun d => d.userId == "u") :=
  ⟨((getUserSummary_spec "u" 9 sampleStore).2 rfl).1,
    ((getUserSummary_spec "u" 9 sampleStore).2 rfl).2.1⟩

/-- The ids of a queue level processed in order against a visited list:
an id already visited is skipped, a new id is kept and added to the
visited list (first occurrence wins). -/
def takeNew (v : List String) : List String → List String
  | [] => []
  | id :: rest =>
      if v.contains id then takeNew v rest
      else id :: takeNew (v ++ [id]) rest

theorem mem_takeNew (y : String) :
    ∀ (ids v : List String),
      y ∈ takeNew v ids ↔ y ∈ ids ∧ ¬(y ∈ v) := by
  intro ids
  induction ids with
  | nil => intro v; simp [takeNew]
  | cons id rest ih =>
      intro v
      by_cases hid : v.contains id
      · rw [takeNew]
        simp only [hid, if_true]
        rw [ih v]
        constructor
        · intro ⟨h1, h2⟩
          exact ⟨List.mem_cons_of_mem id h1, h2⟩
        · intro ⟨h1, h2⟩
          rcases List.mem_cons.mp h1 with h1 | h1
          · exfalso
            rw [h1] at h2
            exact h2 (List.mem_of_elem_eq_true hid)
          · exact ⟨h1, h2⟩
      · have hid2 : v.contains id = false := by
          cases h : v.contains id
          · rfl
          · exact absurd h hid
        rw [takeNew]
        simp only [hid2, Bool.false_eq_true, if_false]
        rw [List.mem_cons, ih (v ++ [id])]
        constructor
        · intro h
          rcases h with h | ⟨h1, h2⟩
          · subst h
            refine ⟨List.mem_cons_self y rest, fun hv => ?_⟩
            exact hid (List.elem_eq_true_of_mem hv)
          · refine ⟨List.mem_cons_of_mem id h1, fun hv => ?_⟩
            exact h2 (List.mem_append_left [id] hv)
        · intro ⟨h1, h2⟩
          rcases List.mem_cons.mp h1 with h1 | h1
          · exact Or.inl h1
          · by_cases hy : y = id
            · exact Or.inl hy
            · refine Or.inr ⟨h1, fun hv => ?_⟩
              rcases List.mem_append.mp hv with hv | hv
              · exact h2 hv
              · exact hy (List.mem_singleton.mp hv)

/-- When every queued item sits exactly at the depth bound, the loop
processes the new ids in order and expands none of them. -/
theorem bfsNodes_at_bound (u : String) (depth : Nat) (s : Store) :
    ∀ (q : List (String × Nat)) (v : List String),
      (∀ it ∈ q, it.2 = depth) →
      bfsNodes u depth s q v = (takeNew v (q.map Prod.fst), []) := by
  intro q
  induction q with
  | nil => intro v hq; simp [bfsNodes, takeNew]
  | cons it rest ih =>
      intro v hq
      obtain ⟨id, dep⟩ := it
      have hdep : dep = depth := hq (id, dep) (List.mem_cons_self _ _)
      subst hdep
      by_cases hv : v.contains id = true
      · have htn : takeNew v (List.map Prod.fst ((id, dep) :: rest)) =
            takeNew v (List.map Prod.fst rest) := by
          rw [List.map_cons, takeNew, if_pos hv]
        simp only [bfsNodes]
        rw [if_pos (Or.inl hv), htn]
        exact ih v (fun x hx => hq x (List.mem_cons_of_mem _ hx))
      · have htn : takeNew v (List.map Prod.fst ((id, dep) :: rest)) =
            id :: takeNew (v ++ [id]) (List.map Prod.fst rest) := by
          rw [List.map_cons, takeNew, if_neg hv]
        have hcond : ¬(v.contains id = true ∨ dep > dep) := by
          intro h
          rcases h with h | h
          · exact hv h
          · exact lt_irrefl dep h
        simp only [bfsNodes]
        rw [if_neg hcond, dif_neg (lt_irrefl dep), htn]
        rw [ih (v ++ [id]) (fun x hx => hq x (List.mem_cons_of_mem _ hx))]

/-- The ids enqueued by expanding the start node: the far endpoint of
every relation touching it, except the start id itself (already
visited). -/
def neighborIds (u X : String) (s : Store) : List String :=
  ((getRelations u X s).filter
    (fun r => !([X] : List String).contains (nextEntityOf X r))).map
    (fun r => nextEntityOf X r)

/-- The ids the BFS dequeues and processes (in order), and the sublist of
those it expands because they were reached strictly below the depth
bound. -/
def processedNodes (u X : String) (depth : Nat) (s : Store) : List String :=
  (bfsNodes u depth s [(X, 0)] []).1

def expandedNodes (u X : String) (depth : Nat) (s : Store) : List String :=
  (bfsNodes u depth s [(X, 0)] []).2

/-- The traversal result in terms of the processed and expanded node ids:
entities are the existing processed ids' entities, relations the
concatenation (without deduplication) of `getRelations` over the expanded
ids. -/
theorem getConnectedEntities_eq (u X : String) (depth : Nat) (s : Store) :
    getConnectedEntities u X depth s =
      ⟨(processedNodes u X depth s).filterMap (fun y => getEntity u y s),
        (expandedNodes u X depth s).flatMap (fun y => getRelations u y s)⟩ := by
  unfold getConnectedEntities processedNodes expandedNodes
  rw [bfsLoop_eq_nodes]
  simp

/-- At depth 1 the BFS processes the start id and then its fresh
neighbour ids at the bound, and expands only the start id. -/
theorem bfsNodes_depth_one (u X : String) (s : Store) :
    bfsNodes u 1 s [(X, 0)] [] =
      (X :: takeNew [X] (neighborIds u X s), [X]) := by
  simp only [bfsNodes]
  rw [if_neg (by simp), dif_pos (by norm_num)]
  rw [bfsNodes_at_bound u 1 s _ _ (by
    intro it hit
    rw [List.nil_append] at hit
    obtain ⟨id2, hid2, heq⟩ := List.mem_map.mp hit
    rw [← heq])]
  simp [neighborIds, List.map_map]
  rfl

theorem mem_getRelations_endpoint (u id : String) (s : Store)
    (r : Relation) (hr : r ∈ getRelations u id s) :
    r.fromEntityId = id ∨ r.toEntityId = id := by
  obtain ⟨d, hd, hdr⟩ := List.mem_map.mp hr
  have ht := (List.mem_filter.mp hd).2
  unfold relTouches at ht
  rw [Bool.and_eq_true_iff] at ht
  rcases Bool.or_eq_true_iff.mp ht.2 with h | h
  · left
    rw [← hdr]
    exact eq_of_beq h
  · right
    rw [← hdr]
    exact eq_of_beq h

/-- C5: at depth 1 the traversal returns the start entity, every existing
direct neighbour, and exactly the relations touching the start id (so
relations exclusively between two neighbours are excluded); in general a
relation only enters the result through the expansion of a node reached
strictly below the depth bound — nodes first reached at the bound are
never expanded — while every relation touching an expanded node,
including edges into bound-depth frontier nodes, is included. -/
theorem getConnectedEntities_depth_one_spec (u X : String) (s : Store)
    (eX : Entity) (hX : getEntity u X s = some eX) :
    eX ∈ (getConnectedEntities u X 1 s).entities ∧
    (∀ Y e, Y ≠ X →
      (∃ r ∈ getRelations u X s, nextEntityOf X r = Y) →
      getEntity u Y s = some e →
      e ∈ (getConnectedEntities u X 1 s).entities) ∧
    (getConnectedEntities u X 1 s).relations = getRelations u X s ∧
    (∀ r ∈ (getConnectedEntities u X 1 s).relations,
      r.fromEntityId = X ∨ r.toEntityId = X) ∧
    (∀ depth r, r ∈ (getConnectedEntities u X depth s).relations →
      ∃ Y ∈ expandedNodes u X depth s,
        r.fromEntityId = Y ∨ r.toEntityId = Y) ∧
    (∀ depth Y, Y ∈ expandedNodes u X depth s →
      ∀ r ∈ getRelations u Y s,
        r ∈ (getConnectedEntities u X depth s).relations) := by
  have hp1 : processedNodes u X 1 s =
      X :: takeNew [X] (neighborIds u X s) := by
    unfold processedNodes
    rw [bfsNodes_depth_one]
  have he1 : expandedNodes u X 1 s = [X] := by
    unfold expandedNodes
    rw [bfsNodes_depth_one]
  refine ⟨?_, ?_, ?_, ?_, ?_, ?_⟩
  · rw [getConnectedEntities_eq, hp1]
    show eX ∈ (X :: takeNew [X] (neighborIds u X s)).filterMap
      (fun y => getEntity u y s)
    exact List.mem_filterMap.mpr ⟨X, List.mem_cons_self _ _, hX⟩
  · intro Y e hYX hnb hgeY
    rw [getConnectedEntities_eq, hp1]
    show e ∈ (X :: takeNew [X] (neighborIds u X s)).filterMap
      (fun y => getEntity u y s)
    refine List.mem_filterMap.mpr ⟨Y, ?_, hgeY⟩
    refine List.mem_cons_of_mem X ((mem_takeNew Y _ [X]).mpr ⟨?_, ?_⟩)
    · obtain ⟨r, hrmem, hrnext⟩ := hnb
      unfold neighborIds
      refine List.mem_map.mpr ⟨r, List.mem_filter.mpr ⟨hrmem, ?_⟩, hrnext⟩
      rw [hrnext]
      simp [hYX]
    · simp [hYX]
  · rw [getConnectedEntities_eq, he1]
    show ([X].flatMap (fun y => getRelations u y s)) = getRelations u X s
    simp
  · intro r hr
    rw [getConnectedEntities_eq, he1] at hr
    have : r ∈ getRelations u X s := by
      revert hr
      show r ∈ ([X].flatMap (fun y => getRelations u y s)) → _
      simp
    exact mem_getRelations_endpoint u X s r this
  · intro depth r hr
    rw [getConnectedEntities_eq] at hr
    obtain ⟨Y, hY, hrY⟩ := List.mem_flatMap.mp hr
    exact ⟨Y, hY, mem_getRelations_endpoint u Y s r hrY⟩
  · intro depth Y hY r hr
    rw [getConnectedEntities_eq]
    exact List.mem_flatMap.mpr ⟨Y, hY, hr⟩

/-- Witness for C5: in the sample store the depth 1 traversal from A
contains the entity A itself. -/
theorem getConnectedEntities_depth_one_spec_witness :
    documentToEntity (entityDocOf "u" 1 entA) ∈
      (getConnectedEntities "u" "A" 1 sampleStore).entities :=
  (getConnectedEntities_depth_one_spec "u" "A" sampleStore
    (documentToEntity (entityDocOf "u" 1 entA)) rfl).1

theorem bfsNodes_cons_skip (u : String) (depth : Nat) (s : Store)
    (currentId : String) (currentDepth : Nat) (rest : List (String × Nat))
    (v : List String)
    (hc : v.contains currentId = true ∨ currentDepth > depth) :
    bfsNodes u depth s ((currentId, currentDepth) :: rest) v =
      bfsNodes u depth s rest v := by
  simp only [bfsNodes]
  rw [if_pos hc]

theorem bfsNodes_cons_expand (u : String) (depth : Nat) (s : Store)
    (currentId : String) (currentDepth : Nat) (rest : List (String × Nat))
    (v : List String)
    (hc : ¬(v.contains currentId = true ∨ currentDepth > depth))
    (hlt : currentDepth < depth) :
    bfsNodes u depth s ((currentId, currentDepth) :: rest) v =
      ((currentId :: (bfsNodes u depth s
        (rest ++
          ((((getRelations u currentId s).filter
              (fun r => !(v ++ [currentId]).contains
                (nextEntityOf currentId r))).map
            (fun r => nextEntityOf currentId r)).map
            (fun id => (id, currentDepth + 1))))
        (v ++ [currentId])).1),
      (currentId :: (bfsNodes u depth s
        (rest ++
          ((((getRelations u currentId s).filter
              (fun r => !(v ++ [currentId]).contains
                (nextEntityOf currentId r))).map
            (fun r => nextEntityOf currentId r)).map
            (fun id => (id, currentDepth + 1))))
        (v ++ [currentId])).2)) := by
  simp only [bfsNodes]
  rw [if_neg hc, dif_pos hlt]

theorem bfsNodes_cons_stop (u : String) (depth : Nat) (s : Store)
    (currentId : String) (currentDepth : Nat) (rest : List (String × Nat))
    (v : List String)
    (hc : ¬(v.contains currentId = true ∨ currentDepth > depth))
    (hge : ¬currentDepth < depth) :
    bfsNodes u depth s ((currentId, currentDepth) :: rest) v =
      ((currentId :: (bfsNodes u depth s rest (v ++ [currentId])).1),
        (bfsNodes u depth s rest (v ++ [currentId])).2) := by
  simp only [bfsNodes]
  rw [if_neg hc, dif_neg hge]

/-- The processed node list never repeats an id and avoids everything
already visited. -/
theorem bfsNodes_processed_nodup (u : String) (depth : Nat) (s : Store) :
    ∀ (q : List (String × Nat)) (v : List String),
      (bfsNodes u depth s q v).1.Nodup ∧
      ∀ y ∈ (bfsNodes u depth s q v).1, ¬(y ∈ v) := by
  refine bfsNodes.induct u depth s
    (fun q v => (bfsNodes u depth s q v).1.Nodup ∧
      ∀ y ∈ (bfsNodes u depth s q v).1, ¬(y ∈ v)) ?_ ?_ ?_ ?_
  · intro v
    simp [bfsNodes]
  · intro v currentId currentDepth rest hc ih
    rw [bfsNodes_cons_skip u depth s currentId currentDepth rest v hc]
    exact ih
  · intro v currentId currentDepth rest hc hlt ps es heq ih
    have hcv : ¬(currentId ∈ v) := by
      intro hv
      exact hc (Or.inl (List.elem_eq_true_of_mem hv))
    rw [bfsNodes_cons_expand u depth s currentId currentDepth rest v hc hlt]
    rw [heq] at ih ⊢
    constructor
    · rw [List.nodup_cons]
      refine ⟨fun hmem => ?_, ih.1⟩
      exact (ih.2 currentId hmem)
        (List.mem_append_right v (List.mem_singleton_self currentId))
    · intro y hy
      rcases List.mem_cons.mp hy with hy | hy
      · rw [hy]
        exact hcv
      · intro hyv
        exact (ih.2 y hy) (List.mem_append_left [currentId] hyv)
  · intro v currentId currentDepth rest hc hge ps es heq ih
    have hcv : ¬(currentId ∈ v) := by
      intro hv
      exact hc (Or.inl (List.elem_eq_true_of_mem hv))
    rw [bfsNodes_cons_stop u depth s currentId currentDepth rest v hc hge]
    rw [heq] at ih ⊢
    constructor
    · rw [List.nodup_cons]
      refine ⟨fun hmem => ?_, ih.1⟩
      exact (ih.2 currentId hmem)
        (List.mem_append_right v (List.mem_singleton_self currentId))
    · intro y hy
      rcases List.mem_cons.mp hy with hy | hy
      · rw [hy]
        exact hcv
      · intro hyv
        exact (ih.2 y hy) (List.mem_append_left [currentId] hyv)

/-- The expanded node list is a sublist of the processed node list. -/
theorem bfsNodes_expanded_sublist (u : String) (depth : Nat) (s : Store) :
    ∀ (q : List (String × Nat)) (v : List String),
      List.Sublist (bfsNodes u depth s q v).2 (bfsNodes u depth s q v).1 := by
  refine bfsNodes.induct u depth s
    (fun q v =>
      List.Sublist (bfsNodes u depth s q v).2 (bfsNodes u depth s q v).1)
    ?_ ?_ ?_ ?_
  · intro v
    simp [bfsNodes]
  · intro v currentId currentDepth rest hc ih
    rw [bfsNodes_cons_skip u depth s currentId currentDepth rest v hc]
    exact ih
  · intro v currentId currentDepth rest hc hlt ps es heq ih
    rw [bfsNodes_cons_expand u depth s currentId currentDepth rest v hc hlt]
    rw [heq] at ih ⊢
    exact List.Sublist.cons₂ currentId ih
  · intro v currentId currentDepth rest hc hge ps es heq ih
    rw [bfsNodes_cons_stop u depth s currentId currentDepth rest v hc hge]
    rw [heq] at ih ⊢
    exact List.Sublist.cons currentId ih

theorem expandedNodes_nodup (u X : String) (depth : Nat) (s : Store) :
    (expandedNodes u X depth s).Nodup :=
  ((bfsNodes_processed_nodup u depth s [(X, 0)] []).1).sublist
    (bfsNodes_expanded_sublist u depth s [(X, 0)] [])

theorem count_flatMap (r : Relation) (f : String → List Relation) :
    ∀ ids : List String,
      (ids.flatMap f).count r = (ids.map (fun y => (f y).count r)).sum := by
  intro ids
  induction ids with
  | nil => simp
  | cons y ys ih => simp [List.flatMap_cons, List.count_append, ih]

theorem count_getRelations (u y : String) (s : Store) (r : Relation) :
    (getRelations u y s).count r =
      s.relations.countP
        (fun dc => (documentToRelation dc == r) && relTouches u y dc) := by
  unfold getRelations
  show ((s.relations.filter (relTouches u y)).map documentToRelation).countP
    (fun x => x == r) = _
  rw [List.countP_map]
  rw [List.countP_filter]
  rfl

theorem documentToRelation_endpoints (dc : RelationDoc) (r : Relation)
    (h : documentToRelation dc = r) :
    dc.fromEntityId = r.fromEntityId ∧ dc.toEntityId = r.toEntityId := by
  rw [← h]
  exact ⟨rfl, rfl⟩

theorem count_getRelations_endpoint (u y : String) (s : Store)
    (r : Relation)
    (huser : ∀ dc ∈ s.relations, documentToRelation dc = r →
      dc.userId = u)
    (hy : y = r.fromEntityId ∨ y = r.toEntityId) :
    (getRelations u y s).count r =
      s.relations.countP (fun dc => documentToRelation dc == r) := by
  rw [count_getRelations]
  apply List.countP_congr
  intro dc hdc
  cases hp : (documentToRelation dc == r)
  · simp [hp]
  · have hproj : documentToRelation dc = r := eq_of_beq hp
    have hu := huser dc hdc hproj
    have hend := documentToRelation_endpoints dc r hproj
    have htt : relTouches u y dc = true := by
      unfold relTouches
      rw [Bool.and_eq_true_iff]
      refine ⟨by simp [hu], ?_⟩
      rw [Bool.or_eq_true_iff]
      rcases hy with hy | hy
      · left
        simp [hend.1, hy]
      · right
        simp [hend.2, hy]
    simp [hp, htt]

theorem count_getRelations_other (u y : String) (s : Store) (r : Relation)
    (hy1 : y ≠ r.fromEntityId) (hy2 : y ≠ r.toEntityId) :
    (getRelations u y s).count r = 0 := by
  rw [count_getRelations]
  rw [List.countP_eq_zero]
  intro dc hdc
  intro hboth
  rw [Bool.and_eq_true_iff] at hboth
  have hproj : documentToRelation dc = r := eq_of_beq hboth.1
  have hend := documentToRelation_endpoints dc r hproj
  have ht := hboth.2
  unfold relTouches at ht
  rw [Bool.and_eq_true_iff] at ht
  rcases Bool.or_eq_true_iff.mp ht.2 with h | h
  · exact hy1 (by rw [← hend.1]; exact (eq_of_beq h).symm)
  · exact hy2 (by rw [← hend.2]; exact (eq_of_beq h).symm)

theorem sum_map_zero (g : String → Nat) :
    ∀ ids : List String, (∀ y ∈ ids, g y = 0) → (ids.map g).sum = 0 := by
  intro ids
  induction ids with
  | nil => simp
  | cons y ys ih =>
      intro h
      rw [List.map_cons, List.sum_cons, h y (List.mem_cons_self _ _),
        ih (fun z hz => h z (List.mem_cons_of_mem _ hz))]

theorem sum_map_one (g : String → Nat) (t : String) :
    ∀ ids : List String, ids.Nodup → t ∈ ids → g t = 1 →
      (∀ y ∈ ids, y ≠ t → g y = 0) → (ids.map g).sum = 1 := by
  intro ids
  induction ids with
  | nil => intro _ ht; exact absurd ht (List.not_mem_nil t)
  | cons y ys ih =>
      intro hnd ht hgt h0
      rw [List.nodup_cons] at hnd
      rw [List.map_cons, List.sum_cons]
      rcases List.mem_cons.mp ht with hty | hty
      · have h1 : g y = 1 := by
          rw [← hty]
          exact hgt
        have hz0 : ∀ z ∈ ys, g z = 0 := by
          intro z hz
          apply h0 z (List.mem_cons_of_mem _ hz)
          intro hzt
          rw [hzt, hty] at hz
          exact hnd.1 hz
        rw [h1, sum_map_zero g ys hz0]
      · have hyt : y ≠ t := by
          intro h
          rw [h] at hnd
          exact hnd.1 hty
        rw [h0 y (List.mem_cons_self _ _) hyt]
        rw [ih hnd.2 hty hgt
          (fun z hz hzt => h0 z (List.mem_cons_of_mem _ hz) hzt)]

theorem sum_map_two (g : String → Nat) (f t : String) (hft : f ≠ t) :
    ∀ ids : List String, ids.Nodup → f ∈ ids → t ∈ ids →
      g f = 1 → g t = 1 →
      (∀ y ∈ ids, y ≠ f → y ≠ t → g y = 0) → (ids.map g).sum = 2 := by
  intro ids
  induction ids with
  | nil => intro _ hf; exact absurd hf (List.not_mem_nil f)
  | cons y ys ih =>
      intro hnd hf ht hgf hgt h0
      rw [List.nodup_cons] at hnd
      rw [List.map_cons, List.sum_cons]
      rcases List.mem_cons.mp hf with hfy | hfy
      · have hty : t ∈ ys := by
          rcases List.mem_cons.mp ht with h | h
          · exact absurd (hfy.trans h.symm) hft
          · exact h
        have h1 : g y = 1 := by
          rw [← hfy]
          exact hgf
        have hz0 : ∀ z ∈ ys, z ≠ t → g z = 0 := by
          intro z hz hzt
          refine h0 z (List.mem_cons_of_mem _ hz) ?_ hzt
          intro hzf
          rw [hzf, hfy] at hz
          exact hnd.1 hz
        rw [h1, sum_map_one g t ys hnd.2 hty hgt hz0]
      · rcases List.mem_cons.mp ht with hty | hty
        · have h1 : g y = 1 := by
            rw [← hty]
            exact hgt
          have hz0 : ∀ z ∈ ys, z ≠ f → g z = 0 := by
            intro z hz hzf
            refine h0 z (List.mem_cons_of_mem _ hz) hzf ?_
            intro hzt
            rw [hzt, hty] at hz
            exact hnd.1 hz
          rw [h1, sum_map_one g f ys hnd.2 hfy hgf hz0]
        · have hyf : y ≠ f := by
            intro h
            rw [h] at hnd
            exact hnd.1 hfy
          have hyt : y ≠ t := by
            intro h
            rw [h] at hnd
            exact hnd.1 hty
          rw [h0 y (List.mem_cons_self _ _) hyf hyt]
          rw [ih hnd.2 hfy hty hgf hgt
            (fun z hz hz1 hz2 => h0 z (List.mem_cons_of_mem _ hz) hz1 hz2)]

/-- C10: the relation list of a traversal is the concatenation, without
deduplication, of `getRelations` over the nodes expanded strictly below
the depth bound; consequently for a bound of at least 2, a relation with
distinct endpoints that are both expanded — stored once for this user
— appears exactly twice in the result, once per endpoint. -/
theorem getConnectedEntities_relations_concat (u X : String)
    (depth : Nat) (s : Store) (r : Relation)
    (hd2 : 2 ≤ depth)
    (hfe : r.fromEntityId ∈ expandedNodes u X depth s)
    (hte : r.toEntityId ∈ expandedNodes u X depth s)
    (hft : r.fromEntityId ≠ r.toEntityId)
    (huniq : s.relations.countP
      (fun dc => documentToRelation dc == r) = 1)
    (huser : ∀ dc ∈ s.relations, documentToRelation dc = r →
      dc.userId = u) :
    (getConnectedEntities u X depth s).relations =
      (expandedNodes u X depth s).flatMap (fun y => getRelations u y s) ∧
    (getConnectedEntities u X depth s).relations.count r = 2 := by
  have heq : (getConnectedEntities u X depth s).relations =
      (expandedNodes u X depth s).flatMap (fun y => getRelations u y s) := by
    rw [getConnectedEntities_eq]
  refine ⟨heq, ?_⟩
  rw [heq, count_flatMap]
  refine sum_map_two (fun y => (getRelations u y s).count r)
    r.fromEntityId r.toEntityId hft (expandedNodes u X depth s)
    (expandedNodes_nodup u X depth s) hfe hte ?_ ?_ ?_
  · show (getRelations u r.fromEntityId s).count r = 1
    rw [count_getRelations_endpoint u _ s r huser (Or.inl rfl), huniq]
  · show (getRelations u r.toEntityId s).count r = 1
    rw [count_getRelations_endpoint u _ s r huser (Or.inr rfl), huniq]
  · intro y hy hy1 hy2
    exact count_getRelations_other u y s r hy1 hy2

def entX : Entity :=
  { entityId := "X", name := "X", entityType := "t", observations := [] }

def entY : Entity :=
  { entityId := "Y", name := "Y", entityType := "t", observations := [] }

def entZ : Entity :=
  { entityId := "Z", name := "Z", entityType := "t", observations := [] }

def relXY : Relation :=
  { relationId := "XY", fromEntityId := "X", toEntityId := "Y",
    relationType := "e" }

def relXZ : Relation :=
  { relationId := "XZ", fromEntityId := "X", toEntityId := "Z",
    relationType := "e" }

def relYZ : Relation :=
  { relationId := "YZ", fromEntityId := "Y", toEntityId := "Z",
    relationType := "e" }

/-- A triangle for user w: X, Y, Z with edges X to Y, X to Z and Y to Z. -/
def triStore : Store :=
  saveRelation "w" 3 relYZ
    (saveRelation "w" 2 relXZ
      (saveRelation "w" 1 relXY
        (saveEntitiesBatch "w" 1 [entX, entY, entZ] emptyStore)))

/-- The depth 2 BFS on the triangle processes and expands X, Y and Z. -/
theorem bfsNodes_tri :
    bfsNodes "w" 2 triStore [("X", 0)] [] =
      (["X", "Y", "Z"], ["X", "Y", "Z"]) := by
  have h5 : bfsNodes "w" 2 triStore ([] : List (String × Nat))
      ["X", "Y", "Z"] = ([], []) := by
    simp [bfsNodes]
  have h4 : bfsNodes "w" 2 triStore [("Z", 2)] ["X", "Y", "Z"] =
      bfsNodes "w" 2 triStore [] ["X", "Y", "Z"] :=
    bfsNodes_cons_skip "w" 2 triStore "Z" 2 [] ["X", "Y", "Z"] (by decide)
  have h3 : bfsNodes "w" 2 triStore [("Z", 1), ("Z", 2)] ["X", "Y"] =
      ("Z" :: (bfsNodes "w" 2 triStore [("Z", 2)] ["X", "Y", "Z"]).1,
        "Z" :: (bfsNodes "w" 2 triStore [("Z", 2)] ["X", "Y", "Z"]).2) :=
    bfsNodes_cons_expand "w" 2 triStore "Z" 1 [("Z", 2)] ["X", "Y"]
      (by decide) (by decide)
  have h2 : bfsNodes "w" 2 triStore [("Y", 1), ("Z", 1)] ["X"] =
      ("Y" :: (bfsNodes "w" 2 triStore [("Z", 1), ("Z", 2)] ["X", "Y"]).1,
        "Y" :: (bfsNodes "w" 2 triStore [("Z", 1), ("Z", 2)] ["X", "Y"]).2) :=
    bfsNodes_cons_expand "w" 2 triStore "Y" 1 [("Z", 1)] ["X"]
      (by decide) (by decide)
  have h1 : bfsNodes "w" 2 triStore [("X", 0)] [] =
      ("X" :: (bfsNodes "w" 2 triStore [("Y", 1), ("Z", 1)] ["X"]).1,
        "X" :: (bfsNodes "w" 2 triStore [("Y", 1), ("Z", 1)] ["X"]).2) :=
    bfsNodes_cons_expand "w" 2 triStore "X" 0 [] [] (by decide) (by decide)
  rw [h1, h2, h3, h4, h5]

/-- Witness for C10 on the triangle: the edge from Y to Z has both
endpoints expanded by the depth 2 traversal from X and appears exactly
twice in its relation list. -/
theorem getConnectedEntities_relations_concat_witness :
    (getConnectedEntities "w" "X" 2 triStore).relations =
      (expandedNodes "w" "X" 2 triStore).flatMap
        (fun y => getRelations "w" y triStore) ∧
    (getConnectedEntities "w" "X" 2 triStore).relations.count
      (documentToRelation (relationDocOf "w" 3 relYZ)) = 2 :=
  getConnectedEntities_relations_concat "w" "X" 2 triStore
    (documentToRelation (relationDocOf "w" 3 relYZ)) (by norm_num)
    (by unfold expandedNodes; rw [bfsNodes_tri]; decide)
    (by unfold expandedNodes; rw [bfsNodes_tri]; decide)
    (by decide) (by decide) (by decide)
